import Mathlib

/-!
A shallow embedding, in Lean 4, of the core indexing and retrieval engine of
the `codebase-rag` repository (`src/backend/parsing/chunker.py`,
`src/backend/retrieval/vector_store.py`, `src/backend/retrieval/retriever.py`,
`src/backend/retrieval/indexer.py`), together with theorems settling the
frozen claims about it.

Modelling conventions:
* Python `str` is Lean `String`; the handful of Python string operations the
  code uses (`split('\n')`, `split()`, `strip()`, `lower()`, `in`, `join`)
  are embedded as structurally recursive functions over the character list,
  so that every definition evaluates by kernel reduction.
* Python `float` arithmetic is modelled as exact rational arithmetic over `ℚ`
  (the concrete inputs used in counterexamples and witnesses are chosen so
  that the Python floats are exact there too).
* Python `int(x)` applied to the nonnegative quotients in the chunker is
  floor division, embedded as `Nat` division.
* Fallible Python code returns `Except`; the `while` loop of
  `_chunk_by_lines` is embedded with explicit fuel, so that a run that
  exhausts every fuel bound is a proof of non-termination.
* External collaborators (tree-sitter, the embedding provider, numpy/faiss,
  the file system) are modelled at their interfaces: the segmenter's output
  is an explicit element list, the embedding provider is a pure function
  `String → Option (List ℚ)`, the numpy/faiss shape check on insertion is a
  single-error dimension check, and a saved directory is a `Disk` record
  whose two artifacts can each be missing, corrupt, or valid.
-/

namespace Rag

/-! ### Embedded Python string primitives -/

/-- Python whitespace class used by `str.strip()` and `str.split()`. -/
def isPySpace (c : Char) : Bool :=
  c = ' ' || c = '\t' || c = '\n' || c = '\r' || c = '\x0b' || c = '\x0c'

/-- Split a character list at every character satisfying `p`, keeping empty
pieces, as Python `str.split(sep)` does. The result is always nonempty. -/
def splitOnCharP (p : Char → Bool) : List Char → List (List Char)
  | [] => [[]]
  | a :: t =>
    match splitOnCharP p t with
    | h :: r => if p a then [] :: h :: r else (a :: h) :: r
    | [] => [[]]

/-- Python `code.split('\n')`. -/
def pySplitLines (s : String) : List String :=
  (splitOnCharP (fun c => c = '\n') s.data).map String.mk

/-- Python `str.strip()` (with no argument): drop leading and trailing
whitespace. -/
def pyStrip (s : String) : String :=
  String.mk (((s.data.dropWhile isPySpace).reverse.dropWhile isPySpace).reverse)

/-- Python `str.lower()` (the sources only ever lower-case ASCII text). -/
def pyLower (s : String) : String :=
  String.mk (s.data.map Char.toLower)

/-- Python `sep.join(pieces)`. -/
def pyJoin (sep : String) : List String → String
  | [] => ""
  | [a] => a
  | a :: t => a ++ sep ++ pyJoin sep t

/-- Python `str.split()` (no argument): split on whitespace runs, dropping
empty pieces. -/
def pyWords (s : String) : List String :=
  ((splitOnCharP isPySpace s.data).map String.mk).filter (fun w => w ≠ "")

/-- Whether `needle` is a prefix of `hay`. -/
def charPrefix : List Char → List Char → Bool
  | [], _ => true
  | _ :: _, [] => false
  | a :: t1, b :: t2 => a = b && charPrefix t1 t2

/-- Auxiliary for the Python `in` substring test. -/
def charInfix (needle : List Char) : List Char → Bool
  | [] => charPrefix needle []
  | b :: t => charPrefix needle (b :: t) || charInfix needle t

/-- Python `needle in hay` on strings. -/
def strContainsSub (hay needle : String) : Bool :=
  charInfix needle.data hay.data

/-- Python slice `l[a:b]` for nonnegative indices. -/
def natSlice (l : List α) (a b : Nat) : List α :=
  (l.take b).drop a

/-- Normalise one Python slice index (possibly negative) against length `n`. -/
def pySliceIdx (n : Nat) (i : Int) : Nat :=
  if i < 0 then ((n : Int) + i).toNat else min i.toNat n

/-- Python slice `l[i:j]` for arbitrary (possibly negative) `Int` indices. -/
def pySlice (l : List α) (i j : Int) : List α :=
  natSlice l (pySliceIdx l.length i) (pySliceIdx l.length j)

/-! ### Data model: metadata and chunks (`chunker.py`) -/

/-- A metadata value: the chunker and retriever only ever store strings,
ints and booleans in the metadata dicts. -/
inductive MVal where
  | str (s : String)
  | int (i : Int)
  | bool (b : Bool)
deriving DecidableEq

/-- A Python metadata dict, as an ordered association list (the sources build
each dict once from a literal, so keys are distinct). -/
abbrev Metadata := List (String × MVal)

/-- `CodeChunk` from `chunker.py`. `chunk_id` is derived from the content by
an md5 hash in the source; the hash itself is an external deterministic
injection of the content, modelled here by tagging the content. No claim
inspects the id's value. -/
structure CodeChunk where
  content : String
  metadata : Metadata
  chunk_id : String
deriving DecidableEq

/-- The id `CodeChunk._generate_id` derives from the chunk content
(deterministic function of the content; md5 modelled as tagging). -/
def generateId (content : String) : String :=
  "chunk_" ++ content

/-- `CodeChunker._create_chunk_from_lines`: join the lines, strip, drop the
chunk when the stripped content is empty, else build the metadata dict. -/
def createChunkFromLines (ls : List String) (startLine : Int)
    (language filePath chunkType : String) (chunkNum : Nat) : Option CodeChunk :=
  let content := pyStrip (pyJoin "\n" ls)
  if content = "" then none
  else
    some
      { content := content
        metadata :=
          [("file_path", .str filePath),
           ("language", .str language),
           ("type", .str chunkType),
           ("start_line", .int startLine),
           ("end_line", .int (startLine + ls.length - 1)),
           ("num_lines", .int ls.length),
           ("num_characters", .int content.length),
           ("chunk_number", .int chunkNum)]
        chunk_id := generateId content }

/-- Result of the line-based chunker: `zeroDiv` models the Python
`ZeroDivisionError`, `outOfFuel` means the `while` loop did not finish
within the given fuel (so `∀ fuel, … = outOfFuel` is non-termination). -/
inductive LinesResult where
  | zeroDiv
  | outOfFuel
  | ok (chunks : List CodeChunk)
deriving DecidableEq

/-- The `while i < len(lines)` loop of `CodeChunker._chunk_by_lines`,
with explicit fuel. `i` is a Python `int` (it can move by
`lines_per_chunk - overlap_lines`, which is an arbitrary integer). -/
def linesLoop (lines : List String) (lpc ol : Nat) (language filePath : String) :
    Nat → Int → Nat → List CodeChunk → Option (List CodeChunk)
  | 0, _, _, _ => none
  | fuel + 1, i, chunkNum, acc =>
    if i < (lines.length : Int) then
      linesLoop lines lpc ol language filePath fuel
        (i + ((lpc : Int) - (ol : Int))) (chunkNum + 1)
        (match createChunkFromLines (pySlice lines i (min (i + (lpc : Int)) (lines.length : Int)))
            i language filePath "line_based" chunkNum with
         | some c => acc ++ [c]
         | none => acc)
    else
      some acc

/-- `CodeChunker._chunk_by_lines`. `avg_line_length = len(code)/len(lines)`
is zero exactly when the code is empty (`split('\n')` never returns an empty
list), and then the division `chunk_size / avg_line_length` raises
`ZeroDivisionError`. Otherwise
`lines_per_chunk = int(chunk_size/avg) = chunk_size·len(lines)/len(code)`
(floor), and similarly for the overlap. -/
def chunkByLines (chunkSize chunkOverlap fuel : Nat) (code language filePath : String) :
    LinesResult :=
  if code.length = 0 then .zeroDiv
  else
    match linesLoop (pySplitLines code)
        (chunkSize * (pySplitLines code).length / code.length)
        (chunkOverlap * (pySplitLines code).length / code.length)
        language filePath fuel 0 0 [] with
    | none => .outOfFuel
    | some cs => .ok cs

/-- One function or class element extracted by `CodeParser` (tree-sitter is
external; an `Element` is its per-node output: name, exact source slice,
0-based inclusive line span, byte span, and `type` of `"function"` or
`"class"`). -/
structure Element where
  name : String
  code : String
  start_line : Nat
  end_line : Nat
  start_byte : Nat
  end_byte : Nat
  type : String
deriving DecidableEq

/-- `CodeChunker._create_chunk_from_element`: the chunk content is
`"{context_before}\n{element_code}\n{context_after}".strip()` where
`context_before = '\n'.join(lines[max(0, start-2):start])` and
`context_after = '\n'.join(lines[end+1:min(len(lines), end+3)])`. -/
def createChunkFromElement (el : Element) (code language filePath : String) : CodeChunk :=
  let lines := pySplitLines code
  let startL := el.start_line - 2
  let endL := min lines.length (el.end_line + 3)
  let contextBefore := pyJoin "\n" (natSlice lines startL el.start_line)
  let contextAfter := pyJoin "\n" (natSlice lines (el.end_line + 1) endL)
  let fullContent := pyStrip (contextBefore ++ "\n" ++ el.code ++ "\n" ++ contextAfter)
  { content := fullContent
    metadata :=
      [("file_path", .str filePath),
       ("language", .str language),
       ("type", .str el.type),
       ("name", .str el.name),
       ("start_line", .int el.start_line),
       ("end_line", .int el.end_line),
       ("num_lines", .int ((el.end_line : Int) - el.start_line + 1)),
       ("num_characters", .int fullContent.length),
       ("has_context", .bool true)]
    chunk_id := generateId fullContent }

/-- The claim's padded-context formula, stated from the specification's own
words: the unit's text padded with up to `before` lines of context before it
and up to `after` lines after it (clamped to file bounds), trimmed. -/
def specContextPadded (before after : Nat) (el : Element) (code : String) : String :=
  let lines := pySplitLines code
  let pre := natSlice lines (el.start_line - before) el.start_line
  let post := natSlice lines (el.end_line + 1) (min lines.length (el.end_line + 1 + after))
  pyStrip (pyJoin "\n" pre ++ "\n" ++ el.code ++ "\n" ++ pyJoin "\n" post)

/-! ### Structural chunking around elements (`_chunk_code_outside_elements`) -/

/-- The covered-lines set of `CodeChunker._chunk_code_outside_elements`:
line `i` is covered when some element's (inclusive) line span contains it. -/
def coveredB (els : List Element) (i : Nat) : Bool :=
  els.any (fun el => el.start_line ≤ i && i ≤ el.end_line)

/-- Flush the accumulated run of uncovered lines as one `module_level`
chunk (dropped when its stripped content is empty), as done both in the
loop body and by the trailing `if current_chunk_lines:` of
`_chunk_code_outside_elements`. -/
def flushCur (language filePath : String) (cur : List String) (curStart : Nat)
    (acc : List CodeChunk) : List CodeChunk :=
  if cur.isEmpty then acc
  else
    match createChunkFromLines cur (curStart : Int) language filePath "module_level" 0 with
    | some c => acc ++ [c]
    | none => acc

/-- The `for i, line in enumerate(lines)` loop of
`_chunk_code_outside_elements`, consuming the enumerated line list and
threading the state (`current_chunk_lines`, `current_start_line`,
accumulated chunks). -/
def outsideGo (cov : Nat → Bool) (language filePath : String) :
    List (Nat × String) → List String → Nat → List CodeChunk → List CodeChunk
  | [], cur, curStart, acc => flushCur language filePath cur curStart acc
  | (i, l) :: rest, cur, curStart, acc =>
    if cov i then
      outsideGo cov language filePath rest [] curStart
        (flushCur language filePath cur curStart acc)
    else if cur.isEmpty then
      outsideGo cov language filePath rest [l] i acc
    else
      outsideGo cov language filePath rest (cur ++ [l]) curStart acc

/-- `CodeChunker._chunk_code_outside_elements`. -/
def chunkCodeOutsideElements (code : String) (els : List Element)
    (language filePath : String) : List CodeChunk :=
  outsideGo (coveredB els) language filePath (pySplitLines code).enum [] 0 []

/-- Extend a run decomposition with an uncovered line `l` at index `j`:
`l` joins the first run when that run starts at the adjacent index `j + 1`,
and otherwise opens a new singleton run. -/
def consRun (j : Nat) (l : String) : List (Nat × List String) → List (Nat × List String)
  | [] => [(j, [l])]
  | (j2, ls) :: rest =>
    if j2 = j + 1 then (j, l :: ls) :: rest else (j, [l]) :: (j2, ls) :: rest

/-- Specification-side view: the maximal contiguous runs of lines whose
index fails `cov`, the index count starting at `j`; each run is returned as
its start index paired with its lines. -/
def maximalRunsIdx (cov : Nat → Bool) : Nat → List String → List (Nat × List String)
  | _, [] => []
  | j, l :: t =>
    if cov j then maximalRunsIdx cov (j + 1) t
    else consRun j l (maximalRunsIdx cov (j + 1) t)

/-- Merge a pending uncovered run (started at `s`, lines `cur`) with a run
decomposition: the pending run absorbs the first computed run exactly when
that run starts at the `expected` next index. -/
def mergeCur (s : Nat) (cur : List String) (runs : List (Nat × List String))
    (expected : Nat) : List (Nat × List String) :=
  match runs with
  | [] => [(s, cur)]
  | (j, ls) :: rest =>
    if j = expected then (s, cur ++ ls) :: rest else (s, cur) :: (j, ls) :: rest

/-- `CodeChunker._chunk_by_ast`, parametrised on the combined, sorted
function/class element list obtained from the external tree-sitter parser.
With zero elements (and likewise on parse failure) it falls back to
`_chunk_by_lines`; otherwise it emits one chunk per element followed by the
`module_level` chunks for the uncovered gaps. -/
def chunkByAst (chunkSize chunkOverlap fuel : Nat) (els : List Element)
    (code language filePath : String) : LinesResult :=
  if els.isEmpty then chunkByLines chunkSize chunkOverlap fuel code language filePath
  else
    .ok ((els.map (fun el => createChunkFromElement el code language filePath))
      ++ chunkCodeOutsideElements code els language filePath)

/-! ### Vector store (`vector_store.py`, class `FAISSVectorStore`) -/

/-- Store-level errors. `dimensionMismatch` stands for the exception raised
before any mutation when the shape of the inserted vectors disagrees with
the index dimension (numpy's `ValueError` on a ragged nested list, or the
faiss `add` assertion `d == self.d` on a uniform but wrong-length one);
`indexError` is Python's `IndexError` (`ids[i]` out of range); `notFound`
and `corruptIndex` are the persistence failures (`FileNotFoundError`, and
a faiss read error or `pickle` unpickling error, respectively). -/
inductive VSError where
  | dimensionMismatch
  | indexError
  | notFound
  | corruptIndex
deriving DecidableEq

/-- The external `faiss.IndexFlatL2`: a fixed dimension and the list of
stored vectors in insertion order (`ntotal` is the list length). -/
structure FaissIndex where
  d : Nat
  vectors : List (List ℚ)
deriving DecidableEq

/-- `FAISSVectorStore.__init__(dimension)` state: the configured dimension,
the faiss index, the positional `metadata_store` list and the
`id_to_index` dict (an insertion-ordered association list, as Python
dicts are). -/
structure FAISSVectorStore where
  dimension : Nat
  index : FaissIndex
  metadata_store : List Metadata
  id_to_index : List (String × Nat)
deriving DecidableEq

/-- A freshly constructed `FAISSVectorStore(dimension)`. -/
def mkFAISSVectorStore (d : Nat) : FAISSVectorStore :=
  { dimension := d, index := { d := d, vectors := [] }, metadata_store := [], id_to_index := [] }

/-- Python truthiness of the optional `ids` argument (`if ids:` in
`add_vectors`): true exactly for a provided, non-empty list. -/
def idsTruthy : Option (List String) → Bool
  | some (_ :: _) => true
  | _ => false

/-- Python dict assignment `m[k] = v`: overwrite in place, else append. -/
def dictInsert (m : List (String × Nat)) (k : String) (v : Nat) : List (String × Nat) :=
  if (m.lookup k).isSome then m.map (fun p => if p.1 = k then (k, v) else p)
  else m ++ [(k, v)]

/-- The metadata loop of `FAISSVectorStore.add_vectors`
(`for i, meta in enumerate(metadata)`): each iteration first appends the
metadata entry, then — when a non-empty `ids` list was passed — updates the
id lookup, raising `IndexError` (with the append already done) when `ids`
is shorter than `metadata`. -/
def mdLoop (useIds : Bool) (ids : List String) (startIdx : Nat) :
    Nat → List Metadata → FAISSVectorStore → Except VSError Unit × FAISSVectorStore
  | _, [], s => (.ok (), s)
  | i, m :: rest, s =>
    if useIds then
      match ids.get? i with
      | some idv =>
        mdLoop useIds ids startIdx (i + 1) rest
          ({ s with metadata_store := s.metadata_store ++ [m],
                    id_to_index := dictInsert s.id_to_index idv (startIdx + i) }
            : FAISSVectorStore)
      | none =>
        (.error .indexError,
          ({ s with metadata_store := s.metadata_store ++ [m] } : FAISSVectorStore))
    else
      mdLoop useIds ids startIdx (i + 1) rest
        ({ s with metadata_store := s.metadata_store ++ [m] } : FAISSVectorStore)

/-- `FAISSVectorStore.add_vectors`. An empty vector list returns at once.
Otherwise `np.array(vectors)` plus `index.add` fail — before any mutation —
unless every vector has exactly the index dimension; on success the vectors
are appended to the index and the metadata loop runs. The returned pair is
(call outcome, store state afterwards), so failed calls also expose the
state they leave behind. -/
def addVectors (s : FAISSVectorStore) (vectors : List (List ℚ)) (metadata : List Metadata)
    (ids : Option (List String)) : Except VSError Unit × FAISSVectorStore :=
  if vectors.isEmpty then (.ok (), s)
  else if !(vectors.all (fun v => v.length = s.index.d)) then (.error .dimensionMismatch, s)
  else
    mdLoop (idsTruthy ids) (ids.getD [])
      s.index.vectors.length 0 metadata
      { s with index := { s.index with vectors := s.index.vectors ++ vectors } }

/-- The dict returned by `FAISSVectorStore.get_stats`. -/
structure Stats where
  total_vectors : Nat
  dimension : Nat
  metadata_count : Nat
deriving DecidableEq

/-- `FAISSVectorStore.get_stats`. -/
def getStats (s : FAISSVectorStore) : Stats :=
  { total_vectors := s.index.vectors.length
    dimension := s.dimension
    metadata_count := s.metadata_store.length }

/-- Squared L2 distance, the score `faiss.IndexFlatL2` reports. -/
def sqDist (q v : List ℚ) : ℚ :=
  ((q.zip v).map (fun p => (p.1 - p.2) * (p.1 - p.2))).sum

/-- Ordering of faiss search results: ascending distance, ties by index. -/
def rankLE (a b : ℚ × Nat) : Bool :=
  if a.1 < b.1 then true else if b.1 < a.1 then false else a.2 ≤ b.2

/-- Insertion step of the result sort. -/
def insertRanked (x : ℚ × Nat) : List (ℚ × Nat) → List (ℚ × Nat)
  | [] => [x]
  | y :: t => if rankLE x y then x :: y :: t else y :: insertRanked x t

/-- Sort scored candidates ascending (the order `faiss` returns). -/
def sortRanked : List (ℚ × Nat) → List (ℚ × Nat)
  | [] => []
  | x :: t => insertRanked x (sortRanked t)

/-- One search result dict (`metadata`, `score`, `index`). -/
structure SearchResult where
  metadata : Metadata
  score : ℚ
  index : Nat
deriving DecidableEq

/-- `FAISSVectorStore._matches_filter`: every filter key must be present
with an equal value. -/
def matchesFilter (md : Metadata) (filt : Metadata) : Bool :=
  filt.all (fun kv =>
    match md.lookup kv.1 with
    | some v => v = kv.2
    | none => false)

/-- The result-collection loop of `FAISSVectorStore.search`: skip raw hits
whose position is outside the metadata store, apply the filter, and stop as
soon as `k` results have been appended. -/
def collectResults (mds : List Metadata) (filt : Option Metadata) (k : Nat) :
    List (ℚ × Nat) → List SearchResult → List SearchResult
  | [], acc => acc
  | (dist, idx) :: rest, acc =>
    match mds.get? idx with
    | none => collectResults mds filt k rest acc
    | some md =>
      if (match filt with | some f => !matchesFilter md f | none => false) then
        collectResults mds filt k rest acc
      else
        if k ≤ acc.length + 1 then
          acc ++ [{ metadata := md, score := dist, index := idx }]
        else
          collectResults mds filt k rest (acc ++ [{ metadata := md, score := dist, index := idx }])

/-- `FAISSVectorStore.search`: empty index returns `[]`; otherwise take the
`min(search_k, ntotal)` nearest stored vectors by squared L2 distance
(`search_k = 10·k` when a filter is given, else `k`) and run the
collection loop. -/
def searchStore (s : FAISSVectorStore) (q : List ℚ) (k : Nat) (filt : Option Metadata) :
    List SearchResult :=
  if s.index.vectors.length = 0 then []
  else
    collectResults s.metadata_store filt k
      ((sortRanked (s.index.vectors.enum.map (fun p => (sqDist q p.2, p.1)))).take
        (min (if filt.isSome then k * 10 else k) s.index.vectors.length))
      []

/-- State of one artifact inside a saved directory. -/
inductive FileState (α : Type) where
  | missing
  | corrupt
  | valid (a : α)
deriving DecidableEq

/-- The pickled metadata artifact (`metadata.pkl`). -/
structure SavedMetadata where
  metadata_store : List Metadata
  id_to_index : List (String × Nat)
  dimension : Nat
deriving DecidableEq

/-- A saved directory: the faiss index artifact (`faiss_index.bin`) and the
metadata artifact (`metadata.pkl`), each possibly missing or corrupt. -/
structure Disk where
  indexFile : FileState FaissIndex
  metadataFile : FileState SavedMetadata
deriving DecidableEq

/-- `FAISSVectorStore.save`: write both artifacts. -/
def saveStore (s : FAISSVectorStore) : Disk :=
  { indexFile := .valid s.index
    metadataFile := .valid
      { metadata_store := s.metadata_store, id_to_index := s.id_to_index,
        dimension := s.dimension } }

/-- `FAISSVectorStore.load`: check the index artifact exists, read it and
assign `self.index`, then open and unpickle the metadata artifact and
assign the remaining fields. The returned pair is (call outcome, store
state afterwards): a failure while reading the metadata artifact leaves the
already-assigned index in place. -/
def loadStore (s : FAISSVectorStore) (disk : Disk) : Except VSError Unit × FAISSVectorStore :=
  match disk.indexFile with
  | .missing => (.error .notFound, s)
  | .corrupt => (.error .corruptIndex, s)
  | .valid idx =>
    match disk.metadataFile with
    | .missing => (.error .notFound, { s with index := idx })
    | .corrupt => (.error .corruptIndex, { s with index := idx })
    | .valid m =>
      (.ok (),
        { dimension := m.dimension, index := idx,
          metadata_store := m.metadata_store, id_to_index := m.id_to_index })

/-- The store states reachable by constructing a store and then running any
sequence of inserts (with equal-length vector and metadata lists and, when
a non-empty `ids` list is passed, at least as many ids as metadata entries)
and round trips through `save`/`load`; failed calls contribute the state
they leave behind. -/
inductive Reachable : FAISSVectorStore → Prop where
  | init (d : Nat) : Reachable (mkFAISSVectorStore d)
  | insert (s : FAISSVectorStore) (vectors : List (List ℚ)) (metadata : List Metadata)
      (ids : Option (List String)) :
      Reachable s →
      vectors.length = metadata.length →
      (∀ l, ids = some l → l ≠ [] → metadata.length ≤ l.length) →
      Reachable (addVectors s vectors metadata ids).2
  | saveLoad (s t : FAISSVectorStore) :
      Reachable s → Reachable t →
      Reachable (loadStore t (saveStore s)).2

/-! ### Multi-stage retriever re-ranking (`retriever.py`) -/

/-- `query_terms = set(query.lower().split())` in
`MultiStageRetriever._rerank_results` (duplicates removed; only counting
and `any` are applied to it, so list order is irrelevant). -/
def queryTerms (query : String) : List String :=
  (pyWords (pyLower query)).dedup

/-- `metadata.get(key, '')` — the retriever reads `content`, `type` and
`name` from the metadata dict, all of which the pipeline stores as strings
(a missing key yields the empty string). -/
def getStrMd (md : Metadata) (k : String) : String :=
  match md.lookup k with
  | some (.str s) => s
  | _ => ""

/-- `term_matches = sum(1 for term in query_terms if term in content_lower)`
with `content_lower = content.lower() if content else ''`. -/
def termMatches (query content : String) : Nat :=
  (queryTerms query).countP (fun t => strContainsSub (pyLower content) t)

/-- The fixed type boost dict of `_rerank_results`
(`{'function': 0.3, 'class': 0.2, 'module_level': 0.1, 'import': 0.05}`,
default `0.0`). -/
def typeBoost (t : String) : ℚ :=
  if t = "function" then 3 / 10
  else if t = "class" then 1 / 5
  else if t = "module_level" then 1 / 10
  else if t = "import" then 1 / 20
  else 0

/-- `name_boost = 0.2 if name and any(term in name.lower() for term in
query_terms) else 0.0`. -/
def nameBoost (query : String) (md : Metadata) : ℚ :=
  if getStrMd md "name" ≠ ""
      ∧ (queryTerms query).any (fun t => strContainsSub (pyLower (getStrMd md "name")) t)
  then 1 / 5
  else 0

/-- One candidate entering `_rerank_results`: its raw L2 distance
(`result.get('score', 0)`) and its metadata dict. -/
structure Candidate where
  score : ℚ
  metadata : Metadata
deriving DecidableEq

/-- The `rerank_score` `_rerank_results` assigns to one candidate:
`1/(1+score) + 0.1·term_matches + type_boost + name_boost`. -/
def rerankScore (query : String) (c : Candidate) : ℚ :=
  1 / (1 + c.score)
    + (termMatches query (getStrMd c.metadata "content") : ℚ) * (1 / 10)
    + typeBoost (getStrMd c.metadata "type")
    + nameBoost query c.metadata

/-! ### Indexer (`indexer.py`) -/

/-- The argument triple of one `vector_store.add_vectors` call. -/
abbrev InsertCall := List (List ℚ) × List Metadata × Option (List String)

/-- The `valid_data` comprehension of `Indexer.index_chunks`: zip the
per-text embedding results (the external embedding collaborator is the pure
function `gen`, applied in order by `generate_embeddings`) with the chunk
metadata and ids, and keep the entries whose embedding is not `None`. -/
def validData (gen : String → Option (List ℚ)) (chunks : List CodeChunk) :
    List (List ℚ × Metadata × String) :=
  (((chunks.map (fun c => c.content)).map gen).zip
      ((chunks.map (fun c => c.metadata)).zip (chunks.map (fun c => c.chunk_id)))).filterMap
    (fun p => p.1.map (fun e => (e, p.2)))

/-- Package the outcome of the single `add_vectors` call of
`index_chunks`: on success the call count is returned, on failure the
exception propagates (uncaught in the source). -/
def packResult (call : InsertCall) (n : Nat) :
    Except VSError Unit × FAISSVectorStore
      → List InsertCall × Except VSError (Nat × FAISSVectorStore)
  | (.ok _, s1) => ([call], .ok (n, s1))
  | (.error e, _) => ([call], .error e)

/-- `Indexer.index_chunks`, instrumented with the list of
`add_vectors` calls it performs. Empty input returns 0 with no call; if no
embedding succeeds it returns 0 with no call; otherwise it performs exactly
one `add_vectors` call carrying the surviving embeddings, metadata and ids
in order, and reports their number. -/
def indexChunks (gen : String → Option (List ℚ)) (s : FAISSVectorStore)
    (chunks : List CodeChunk) :
    List InsertCall × Except VSError (Nat × FAISSVectorStore) :=
  if chunks.isEmpty then ([], .ok (0, s))
  else if (validData gen chunks).isEmpty then ([], .ok (0, s))
  else
    packResult
      ((validData gen chunks).map (fun x => x.1),
        (validData gen chunks).map (fun x => x.2.1),
        some ((validData gen chunks).map (fun x => x.2.2)))
      (validData gen chunks).length
      (addVectors s ((validData gen chunks).map (fun x => x.1))
        ((validData gen chunks).map (fun x => x.2.1))
        (some ((validData gen chunks).map (fun x => x.2.2))))

/-- Ten chunks, used to realise the specification's indexing scenario. -/
def scenarioChunks : List CodeChunk :=
  [⟨"t0", [], "i0"⟩, ⟨"t1", [], "i1"⟩, ⟨"t2", [], "i2"⟩, ⟨"t3", [], "i3"⟩,
   ⟨"t4", [], "i4"⟩, ⟨"t5", [], "i5"⟩, ⟨"t6", [], "i6"⟩, ⟨"t7", [], "i7"⟩,
   ⟨"t8", [], "i8"⟩, ⟨"t9", [], "i9"⟩]

/-- An embedding collaborator that fails exactly on the texts of chunks 3
and 7 of the scenario and returns a 1-dimensional embedding otherwise. -/
def scenarioGen (t : String) : Option (List ℚ) :=
  if t = "t3" ∨ t = "t7" then none else some [1]

end Rag

namespace Rag

/-! ### Theorems for C1, C2, C3 -/

/-- Helper: when the effective step `lines_per_chunk - overlap_lines` is
zero, the `_chunk_by_lines` loop never terminates from any live position. -/
theorem linesLoop_stuck (lines : List String) (lpc ol : Nat) (language filePath : String)
    (hstep : (lpc : Int) - (ol : Int) = 0) :
    ∀ (fuel : Nat) (i : Int) (chunkNum : Nat) (acc : List CodeChunk),
      i < (lines.length : Int) →
      linesLoop lines lpc ol language filePath fuel i chunkNum acc = none := by
  intro fuel
  induction fuel with
  | zero => intro i chunkNum acc _; rfl
  | succ n ih =>
    intro i chunkNum acc hi
    rw [linesLoop, if_pos hi]
    have hsame : i + ((lpc : Int) - (ol : Int)) = i := by rw [hstep]; ring
    rw [hsame]
    exact ih _ _ _ hi

/-- C1: the line-based fallback has no floor of 1 on the average line
length. On the empty source `avg_line_length = 0/1 = 0` and the division
`chunk_size / avg_line_length` raises `ZeroDivisionError` — for every
configuration and every fuel — instead of returning the empty chunk list
the specification requires. A whitespace-only (but nonempty) source does
return the empty list. -/
theorem c1_empty_source_zero_division :
    (∀ (chunkSize chunkOverlap fuel : Nat) (language filePath : String),
      chunkByLines chunkSize chunkOverlap fuel "" language filePath = .zeroDiv)
    ∧ chunkByLines 1000 200 5 " " "python" "t.py" = .ok [] := by
  constructor
  · intro chunkSize chunkOverlap fuel language filePath
    rfl
  · rfl

set_option maxRecDepth 100000 in
/-- C2: line-based chunking does not always terminate. The advance is the
bare `lines_per_chunk - overlap_lines`, with no `max(1, ·)` floor: on a
single 1001-character line with the default configuration
(`chunk_size = 1000`, `chunk_overlap = 200`), `lines_per_chunk = 0` and
`overlap_lines = 0`, so the window never advances and the loop runs out of
any amount of fuel. -/
theorem c2_line_chunking_nonterminating :
    ∀ fuel : Nat,
      chunkByLines 1000 200 fuel (String.mk (List.replicate 1001 'a')) "python" "big.py"
        = .outOfFuel := by
  intro fuel
  have hsplit : pySplitLines (String.mk (List.replicate 1001 'a'))
      = [String.mk (List.replicate 1001 'a')] := by rfl
  have hlen : (String.mk (List.replicate 1001 'a')).length = 1001 := by rfl
  rw [chunkByLines, hsplit, hlen]
  norm_num
  have hnone := linesLoop_stuck [String.mk (List.replicate 1001 'a')] 0 0 "python" "big.py"
    (by norm_num) fuel 0 0 [] (by norm_num)
  rw [hnone]

/-- C3 counterexample: the structural chunker pads with at most two lines of
context after the unit, not three. For the file
`"def f(): pass\na\nb\nc"` with a unit on line 0, the produced content is
`"def f(): pass\na\nb"`, while the claimed formula (three lines of
after-context) yields `"def f(): pass\na\nb\nc"`. -/
theorem c3_counterexample_after_context :
    (createChunkFromElement
        { name := "f", code := "def f(): pass", start_line := 0, end_line := 0,
          start_byte := 0, end_byte := 13, type := "function" }
        "def f(): pass\na\nb\nc" "python" "t.py").content
      ≠ specContextPadded 2 3
        { name := "f", code := "def f(): pass", start_line := 0, end_line := 0,
          start_byte := 0, end_byte := 13, type := "function" }
        "def f(): pass\na\nb\nc" := by
  decide

/-- C3 (amended): for every source unit, the chunk built from it has content
equal to the unit's text padded with up to 2 lines of context before and up
to 2 lines of context after (clamped to file bounds), trimmed of leading and
trailing whitespace. -/
theorem c3_element_chunk_content (el : Element) (code language filePath : String) :
    (createChunkFromElement el code language filePath).content
      = specContextPadded 2 2 el code := by
  rfl

/-! ### Theorems for C10 -/

/-- Helper: a chunk actually produced by `_create_chunk_from_lines` carries
the chunk type it was given and a nonempty (stripped) content. -/
theorem createChunkFromLines_fields (ls : List String) (i : Int)
    (language filePath ty : String) (cn : Nat) (c : CodeChunk)
    (h : createChunkFromLines ls i language filePath ty cn = some c) :
    c.metadata.lookup "type" = some (.str ty) ∧ c.content ≠ "" := by
  simp only [createChunkFromLines] at h
  by_cases hs : pyStrip (pyJoin "\n" ls) = ""
  · rw [if_pos hs] at h
    exact absurd h (by simp)
  · rw [if_neg hs] at h
    injection h with h
    subst h
    exact ⟨rfl, hs⟩

/-- Helper: membership in `consRun j l runs` starts at `j` or comes from a
run of `runs`. -/
theorem consRun_start_le (j : Nat) (l : String) (runs : List (Nat × List String))
    (hruns : ∀ r ∈ runs, j + 1 ≤ r.1) :
    ∀ r ∈ consRun j l runs, j ≤ r.1 := by
  intro r h
  cases runs with
  | nil =>
    simp [consRun] at h
    simp [h]
  | cons p rest =>
    obtain ⟨j2, ls2⟩ := p
    simp only [consRun] at h
    by_cases hj : j2 = j + 1
    · rw [if_pos hj] at h
      rcases List.mem_cons.mp h with h1 | h1
      · simp [h1]
      · have := hruns r (List.mem_cons_of_mem _ h1)
        omega
    · rw [if_neg hj] at h
      rcases List.mem_cons.mp h with h1 | h1
      · simp [h1]
      · have := hruns r h1
        omega

/-- Helper: every run produced by `maximalRunsIdx cov j ls` starts at an
index at least `j`. -/
theorem maximalRunsIdx_start_le (cov : Nat → Bool) :
    ∀ (ls : List String) (j : Nat) (r : Nat × List String),
      r ∈ maximalRunsIdx cov j ls → j ≤ r.1 := by
  intro ls
  induction ls with
  | nil => intro j r h; simp [maximalRunsIdx] at h
  | cons l t ih =>
    intro j r h
    rw [maximalRunsIdx] at h
    by_cases hc : cov j
    · rw [if_pos hc] at h
      exact Nat.le_of_succ_le (ih (j + 1) r h)
    · rw [if_neg hc] at h
      exact consRun_start_le j l _ (fun r2 h2 => ih (j + 1) r2 h2) r h

/-- Helper: starting a fresh pending run at an uncovered index agrees with
`consRun`. -/
theorem mergeCur_consRun (j : Nat) (l : String) (runs : List (Nat × List String)) :
    mergeCur j [l] runs (j + 1) = consRun j l runs := by
  cases runs with
  | nil => rfl
  | cons p rest =>
    obtain ⟨j2, ls2⟩ := p
    by_cases hj : j2 = j + 1 <;> simp [mergeCur, consRun, hj]

/-- Helper: appending an uncovered line to a nonempty pending run agrees
with merging against `consRun`. -/
theorem mergeCur_step (s : Nat) (cur : List String) (j : Nat) (l : String)
    (runs : List (Nat × List String)) :
    mergeCur s (cur ++ [l]) runs (j + 1) = mergeCur s cur (consRun j l runs) j := by
  cases runs with
  | nil => simp [mergeCur, consRun]
  | cons p rest =>
    obtain ⟨j2, ls2⟩ := p
    by_cases hj : j2 = j + 1 <;> simp [mergeCur, consRun, hj]

/-- Helper: flushing a nonempty pending run appends the optional chunk
built from it. -/
theorem flushCur_ne (language filePath : String) (cur : List String) (s : Nat)
    (acc : List CodeChunk) (h : cur ≠ []) :
    flushCur language filePath cur s acc
      = acc ++ (createChunkFromLines cur (s : Int) language filePath "module_level" 0).toList := by
  have hne : cur.isEmpty = false := by simp [h]
  cases hc : createChunkFromLines cur (s : Int) language filePath "module_level" 0 <;>
    simp [flushCur, hne, hc]

/-- Helper: the gap-collection loop of `_chunk_code_outside_elements`
computes exactly the chunks of the maximal uncovered runs: with an empty
pending run it produces the runs of the remaining enumerated lines, and
with a nonempty pending run the first computed run is merged into it when
contiguous. -/
theorem outsideGo_eq_runs (cov : Nat → Bool) (language filePath : String) :
    ∀ (ls : List String) (j s : Nat) (acc : List CodeChunk),
      (outsideGo cov language filePath (List.enumFrom j ls) [] s acc
        = acc ++ (maximalRunsIdx cov j ls).filterMap
            (fun r => createChunkFromLines r.2 (r.1 : Int) language filePath "module_level" 0))
      ∧ (∀ cur, cur ≠ [] →
          outsideGo cov language filePath (List.enumFrom j ls) cur s acc
            = acc ++ (mergeCur s cur (maximalRunsIdx cov j ls) j).filterMap
                (fun r => createChunkFromLines r.2 (r.1 : Int) language filePath "module_level" 0)) := by
  intro ls
  induction ls with
  | nil =>
    intro j s acc
    constructor
    · simp [List.enumFrom, outsideGo, flushCur, maximalRunsIdx]
    · intro cur hcur
      simp only [List.enumFrom, outsideGo, maximalRunsIdx, mergeCur]
      rw [flushCur_ne _ _ _ _ _ hcur]
      cases hc : createChunkFromLines cur (s : Int) language filePath "module_level" 0 <;>
        simp [hc]
  | cons l t ih =>
    intro j s acc
    constructor
    · rw [List.enumFrom, outsideGo, maximalRunsIdx]
      by_cases hc : cov j
      · rw [if_pos hc, if_pos hc]
        have hflush : flushCur language filePath [] s acc = acc := by simp [flushCur]
        rw [hflush]
        exact (ih (j + 1) s acc).1
      · rw [if_neg hc, if_neg hc]
        have hempty : (([] : List String)).isEmpty = true := rfl
        rw [if_pos hempty]
        rw [(ih (j + 1) j acc).2 [l] (by simp)]
        rw [mergeCur_consRun]
    · intro cur hcur
      rw [List.enumFrom, outsideGo, maximalRunsIdx]
      by_cases hc : cov j
      · rw [if_pos hc, if_pos hc]
        rw [(ih (j + 1) s (flushCur language filePath cur s acc)).1]
        rw [flushCur_ne _ _ _ _ _ hcur]
        have hstart : ∀ r ∈ maximalRunsIdx cov (j + 1) t, j + 1 ≤ r.1 :=
          fun r hr => maximalRunsIdx_start_le cov t (j + 1) r hr
        have hmerge : mergeCur s cur (maximalRunsIdx cov (j + 1) t) j
            = (s, cur) :: maximalRunsIdx cov (j + 1) t := by
          cases hm : maximalRunsIdx cov (j + 1) t with
          | nil => rfl
          | cons p rest =>
            obtain ⟨j2, ls2⟩ := p
            have : j + 1 ≤ j2 := by
              have := hstart (j2, ls2) (hm ▸ List.mem_cons_self _ _)
              simpa using this
            have hne2 : j2 ≠ j := by omega
            simp [mergeCur, hne2]
        rw [hmerge]
        cases hch : createChunkFromLines cur (s : Int) language filePath "module_level" 0 <;>
          simp [hch]
      · rw [if_neg hc, if_neg hc]
        have hne : cur.isEmpty = false := by simp [hcur]
        rw [if_neg (by simp [hne] : ¬cur.isEmpty = true)]
        rw [(ih (j + 1) s acc).2 (cur ++ [l]) (by simp)]
        rw [mergeCur_step]

/-- Helper: the line spans of the maximal uncovered runs enumerate exactly
the uncovered line indices, each exactly once and in order. -/
theorem maximalRunsIdx_bind (cov : Nat → Bool) :
    ∀ (ls : List String) (j : Nat),
      (maximalRunsIdx cov j ls).flatMap (fun r => List.range' r.1 r.2.length)
        = (List.range' j ls.length).filter (fun i => !cov i) := by
  intro ls
  induction ls with
  | nil => intro j; simp [maximalRunsIdx]
  | cons l t ih =>
    intro j
    rw [maximalRunsIdx, List.length_cons,
      show List.range' j (t.length + 1) = j :: List.range' (j + 1) t.length from rfl]
    by_cases hc : cov j
    · rw [if_pos hc, ih (j + 1)]
      rw [List.filter_cons_of_neg (by simp [hc])]
    · rw [if_neg hc]
      rw [List.filter_cons_of_pos (by simp [hc])]
      rw [← ih (j + 1)]
      cases hm : maximalRunsIdx cov (j + 1) t with
      | nil => simp [consRun]
      | cons p rest =>
        obtain ⟨j2, ls2⟩ := p
        by_cases hj : j2 = j + 1
        · subst hj
          simp [consRun, List.flatMap_cons,
            show List.range' j (ls2.length + 1) = j :: List.range' (j + 1) ls2.length from rfl]
        · simp [consRun, hj, List.flatMap_cons]

/-- Helper: every chunk a successful `_chunk_by_lines` loop run produces
has type `line_based` (given the accumulator already satisfies this). -/
theorem linesLoop_line_based (lines : List String) (lpc ol : Nat)
    (language filePath : String) :
    ∀ (fuel : Nat) (i : Int) (chunkNum : Nat) (acc out : List CodeChunk),
      (∀ c ∈ acc, c.metadata.lookup "type" = some (.str "line_based")) →
      linesLoop lines lpc ol language filePath fuel i chunkNum acc = some out →
      ∀ c ∈ out, c.metadata.lookup "type" = some (.str "line_based") := by
  intro fuel
  induction fuel with
  | zero =>
    intro i chunkNum acc out _ h
    exact absurd h (by simp [linesLoop])
  | succ n ih =>
    intro i chunkNum acc out hacc h
    rw [linesLoop] at h
    by_cases hi : i < (lines.length : Int)
    · rw [if_pos hi] at h
      revert h
      cases hch : createChunkFromLines (pySlice lines i (min (i + (lpc : Int)) (lines.length : Int)))
          i language filePath "line_based" chunkNum with
      | none =>
        intro h
        exact ih _ _ _ _ hacc h
      | some c0 =>
        intro h
        refine ih _ _ (acc ++ [c0]) _ ?_ h
        intro c hmem
        rcases List.mem_append.mp hmem with hm | hm
        · exact hacc c hm
        · have hcc : c = c0 := by simpa using hm
          subst hcc
          exact (createChunkFromLines_fields _ _ _ _ _ _ _ hch).1
    · rw [if_neg hi] at h
      have hao : acc = out := by simpa using h
      subst hao
      exact hacc

/-- C10: when structural segmentation finds elements, the gap pass emits
exactly one `module_level` chunk for each maximal contiguous run of source
lines not covered by any element's line span (a run is dropped exactly when
its stripped content is empty, and the runs enumerate every uncovered line
exactly once), and every emitted gap chunk has type `module_level` and
nonempty content; with zero elements `_chunk_by_ast` falls back entirely to
`_chunk_by_lines`, whose chunks all have type `line_based` (so none are
`module_level`). -/
theorem c10_gap_chunking (code : String) (els : List Element)
    (language filePath : String) :
    (chunkCodeOutsideElements code els language filePath
        = (maximalRunsIdx (coveredB els) 0 (pySplitLines code)).filterMap
            (fun r => createChunkFromLines r.2 (r.1 : Int) language filePath "module_level" 0))
    ∧ ((maximalRunsIdx (coveredB els) 0 (pySplitLines code)).flatMap
          (fun r => List.range' r.1 r.2.length)
        = (List.range' 0 (pySplitLines code).length).filter (fun i => !coveredB els i))
    ∧ (∀ c ∈ chunkCodeOutsideElements code els language filePath,
        c.metadata.lookup "type" = some (.str "module_level") ∧ c.content ≠ "")
    ∧ (∀ chunkSize chunkOverlap fuel : Nat,
        chunkByAst chunkSize chunkOverlap fuel [] code language filePath
          = chunkByLines chunkSize chunkOverlap fuel code language filePath)
    ∧ (∀ (chunkSize chunkOverlap fuel : Nat) (out : List CodeChunk),
        chunkByLines chunkSize chunkOverlap fuel code language filePath = .ok out →
        ∀ c ∈ out, c.metadata.lookup "type" = some (.str "line_based")) := by
  have heq : chunkCodeOutsideElements code els language filePath
      = (maximalRunsIdx (coveredB els) 0 (pySplitLines code)).filterMap
          (fun r => createChunkFromLines r.2 (r.1 : Int) language filePath "module_level" 0) := by
    rw [chunkCodeOutsideElements]
    rw [show (pySplitLines code).enum = List.enumFrom 0 (pySplitLines code) from rfl]
    simpa using (outsideGo_eq_runs (coveredB els) language filePath (pySplitLines code) 0 0 []).1
  refine ⟨heq, maximalRunsIdx_bind (coveredB els) (pySplitLines code) 0, ?_, ?_, ?_⟩
  · intro c hc
    rw [heq] at hc
    obtain ⟨r, _, hr⟩ := List.mem_filterMap.mp hc
    exact createChunkFromLines_fields _ _ _ _ _ _ _ hr
  · intro chunkSize chunkOverlap fuel
    rfl
  · intro chunkSize chunkOverlap fuel out hout c hcmem
    rw [chunkByLines] at hout
    by_cases hz : code.length = 0
    · rw [if_pos hz] at hout
      simp at hout
    · rw [if_neg hz] at hout
      revert hout
      cases hloop : linesLoop (pySplitLines code)
          (chunkSize * (pySplitLines code).length / code.length)
          (chunkOverlap * (pySplitLines code).length / code.length)
          language filePath fuel 0 0 [] with
      | none => intro hout; simp at hout
      | some cs =>
        intro hout
        have hcs : cs = out := by simpa using hout
        subst hcs
        exact linesLoop_line_based _ _ _ _ _ fuel 0 0 [] cs (by simp) hloop c hcmem

/-- C10 witness: for the file `"x\ny"` with one function element covering
line 1, the single uncovered line 0 becomes a `module_level` chunk. -/
theorem c10_gap_chunking_witness :
    (⟨"x",
      [("file_path", .str "m.py"), ("language", .str "python"),
       ("type", .str "module_level"), ("start_line", .int 0),
       ("end_line", .int 0), ("num_lines", .int 1),
       ("num_characters", .int 1), ("chunk_number", .int 0)],
      "chunk_x"⟩ : CodeChunk) ∈
        chunkCodeOutsideElements "x\ny"
          [{ name := "f", code := "y", start_line := 1, end_line := 1,
             start_byte := 2, end_byte := 3, type := "function" }] "python" "m.py"
      ∧ (List.lookup "type"
          [("file_path", MVal.str "m.py"), ("language", MVal.str "python"),
           ("type", MVal.str "module_level"), ("start_line", MVal.int 0),
           ("end_line", MVal.int 0), ("num_lines", MVal.int 1),
           ("num_characters", MVal.int 1), ("chunk_number", MVal.int 0)]
          = some (MVal.str "module_level")) := by
  constructor
  · decide
  · exact ((c10_gap_chunking "x\ny"
      [{ name := "f", code := "y", start_line := 1, end_line := 1,
         start_byte := 2, end_byte := 3, type := "function" }] "python" "m.py").2.2.1
      ⟨"x",
        [("file_path", .str "m.py"), ("language", .str "python"),
         ("type", .str "module_level"), ("start_line", .int 0),
         ("end_line", .int 0), ("num_lines", .int 1),
         ("num_characters", .int 1), ("chunk_number", .int 0)],
        "chunk_x"⟩ (by decide)).1

/-! ### Theorems for C4, C5, C6, C9 -/

/-- C4: inserting any batch that contains a vector whose length differs
from the store's configured dimension fails with the dimension-mismatch
error, and the store — index, metadata array and id lookup — is left
exactly as it was (the shape check precedes every mutation). -/
theorem c4_dimension_mismatch_rejected (s : FAISSVectorStore)
    (vectors : List (List ℚ)) (metadata : List Metadata) (ids : Option (List String))
    (hd : s.index.d = s.dimension)
    (h : ∃ v ∈ vectors, v.length ≠ s.dimension) :
    addVectors s vectors metadata ids = (.error .dimensionMismatch, s) := by
  obtain ⟨v, hv, hlen⟩ := h
  have hne : vectors.isEmpty = false := by
    cases vectors with
    | nil => simp at hv
    | cons a t => rfl
  have hall : vectors.all (fun v => v.length = s.index.d) = false := by
    rw [List.all_eq_false]
    refine ⟨v, hv, ?_⟩
    simp [hd]
    exact hlen
  rw [addVectors, hne, hall]
  rfl

/-- C4 witness: a 1-dimensional vector inserted into a store of dimension 2
is rejected with no state change. -/
theorem c4_dimension_mismatch_witness :
    (mkFAISSVectorStore 2).index.d = (mkFAISSVectorStore 2).dimension
    ∧ (∃ v ∈ [[(1 : ℚ)]], v.length ≠ (mkFAISSVectorStore 2).dimension)
    ∧ addVectors (mkFAISSVectorStore 2) [[(1 : ℚ)]] [[]] none
        = (.error .dimensionMismatch, mkFAISSVectorStore 2) :=
  ⟨rfl, ⟨[(1 : ℚ)], by decide, by decide⟩,
    c4_dimension_mismatch_rejected (mkFAISSVectorStore 2) [[(1 : ℚ)]] [[]] none
      rfl ⟨[(1 : ℚ)], by decide, by decide⟩⟩

/-- C5 (amended): `load` on a missing or unreadable index artifact fails
with `NotFound`/`CorruptIndex` and leaves the store unchanged; but when the
index artifact loads and the metadata artifact is then missing or corrupt,
the error propagates with the store's index already replaced (its metadata
array, id lookup and dimension keep their prior values). -/
theorem c5_load_failure_states :
    (∀ (s : FAISSVectorStore) (mf : FileState SavedMetadata),
      loadStore s { indexFile := .missing, metadataFile := mf } = (.error .notFound, s))
    ∧ (∀ (s : FAISSVectorStore) (mf : FileState SavedMetadata),
      loadStore s { indexFile := .corrupt, metadataFile := mf } = (.error .corruptIndex, s))
    ∧ (∀ (s : FAISSVectorStore) (idx : FaissIndex),
      loadStore s { indexFile := .valid idx, metadataFile := .missing }
        = (.error .notFound, { s with index := idx }))
    ∧ (∀ (s : FAISSVectorStore) (idx : FaissIndex),
      loadStore s { indexFile := .valid idx, metadataFile := .corrupt }
        = (.error .corruptIndex, { s with index := idx })) :=
  ⟨fun _ _ => rfl, fun _ _ => rfl, fun _ _ => rfl, fun _ _ => rfl⟩

/-- C5 counterexample: loading a directory whose index artifact is valid
but whose metadata artifact is corrupt fails, yet the store is not left
unchanged — its index has been replaced. -/
theorem c5_incomplete_load_counterexample :
    loadStore
        { dimension := 4, index := { d := 4, vectors := [[1, 0, 0, 0]] },
          metadata_store := [[]], id_to_index := [] }
        { indexFile := .valid { d := 8, vectors := [] }, metadataFile := .corrupt }
      = (.error .corruptIndex,
          { dimension := 4, index := { d := 8, vectors := [] },
            metadata_store := [[]], id_to_index := [] })
    ∧ ({ dimension := 4, index := { d := 8, vectors := [] },
          metadata_store := [[]], id_to_index := [] } : FAISSVectorStore)
        ≠ { dimension := 4, index := { d := 4, vectors := [[1, 0, 0, 0]] },
            metadata_store := [[]], id_to_index := [] } := by
  exact ⟨rfl, by decide⟩

/-- C6: saving a populated store and loading the result into a fresh store
of the same dimension succeeds and restores the original store exactly, so
`stats()` and the search results for every query vector, `k` and filter
coincide with the original's. -/
theorem c6_save_load_round_trip (s : FAISSVectorStore) (q : List ℚ) (k : Nat)
    (filt : Option Metadata) :
    loadStore (mkFAISSVectorStore s.dimension) (saveStore s) = (.ok (), s)
    ∧ getStats (loadStore (mkFAISSVectorStore s.dimension) (saveStore s)).2 = getStats s
    ∧ searchStore (loadStore (mkFAISSVectorStore s.dimension) (saveStore s)).2 q k filt
        = searchStore s q k filt := by
  obtain ⟨d, idx, ms, ii⟩ := s
  exact ⟨rfl, rfl, rfl⟩

/-- Helper: when the `ids` list (if used) is long enough, the metadata loop
of `add_vectors` appends every metadata entry, succeeds, and touches
neither the index nor the dimension. -/
theorem mdLoop_complete (useIds : Bool) (ids : List String) (startIdx : Nat) :
    ∀ (md : List Metadata) (i : Nat) (s : FAISSVectorStore),
      (useIds = true → i + md.length ≤ ids.length) →
      (mdLoop useIds ids startIdx i md s).2.metadata_store = s.metadata_store ++ md
      ∧ (mdLoop useIds ids startIdx i md s).2.index = s.index
      ∧ (mdLoop useIds ids startIdx i md s).2.dimension = s.dimension
      ∧ (mdLoop useIds ids startIdx i md s).1 = .ok () := by
  intro md
  induction md with
  | nil => intro i s _; simp [mdLoop]
  | cons m rest ih =>
    intro i s h
    rw [mdLoop]
    by_cases hu : useIds = true
    · rw [if_pos hu]
      have hlt : i < ids.length := by
        have := h hu
        simp only [List.length_cons] at this
        omega
      cases hg : ids.get? i with
      | none =>
        rw [List.get?_eq_none] at hg
        omega
      | some a =>
        have hih := ih (i + 1)
          { s with metadata_store := s.metadata_store ++ [m],
                   id_to_index := dictInsert s.id_to_index a (startIdx + i) }
          (by
            intro _
            have := h hu
            simp only [List.length_cons] at this
            omega)
        refine ⟨?_, hih.2.1, hih.2.2.1, hih.2.2.2⟩
        rw [hih.1]
        simp
    · rw [if_neg hu]
      have hu2 : useIds = false := by
        cases useIds with
        | false => rfl
        | true => exact absurd rfl hu
      have hih := ih (i + 1)
        { s with metadata_store := s.metadata_store ++ [m] }
        (by intro habs; exact absurd habs hu)
      refine ⟨?_, hih.2.1, hih.2.2.1, hih.2.2.2⟩
      rw [hih.1]
      simp

/-- C9 (amended): in every store state reachable by construction, inserts
with equal-length vector and metadata lists whose `ids` argument — when
provided and non-empty — is at least as long as the metadata list, and
`save`/`load` round trips, `stats()` reports `metadata_count` equal to
`total_vectors`. -/
theorem c9_stats_invariant (s : FAISSVectorStore) (h : Reachable s) :
    (getStats s).metadata_count = (getStats s).total_vectors := by
  induction h with
  | init d => rfl
  | insert s vectors metadata ids _ hlen hids ih =>
    show (addVectors s vectors metadata ids).2.metadata_store.length
      = (addVectors s vectors metadata ids).2.index.vectors.length
    rw [addVectors]
    by_cases he : vectors.isEmpty = true
    · rw [if_pos he]
      exact ih
    · rw [if_neg he]
      by_cases ha : vectors.all (fun v => v.length = s.index.d) = true
      · rw [if_neg (by simp [ha])]
        have step : ∀ (u : Bool) (idl : List String),
            (u = true → metadata.length ≤ idl.length) →
            (mdLoop u idl s.index.vectors.length 0 metadata
              ({ s with index :=
                  { s.index with vectors := s.index.vectors ++ vectors } }
                : FAISSVectorStore)).2.metadata_store.length
              = (mdLoop u idl s.index.vectors.length 0 metadata
                ({ s with index :=
                    { s.index with vectors := s.index.vectors ++ vectors } }
                  : FAISSVectorStore)).2.index.vectors.length := by
          intro u idl hu
          have hmd := mdLoop_complete u idl s.index.vectors.length metadata 0
            ({ s with index :=
                { s.index with vectors := s.index.vectors ++ vectors } }
              : FAISSVectorStore)
            (by intro h1; simpa using hu h1)
          rw [hmd.1, hmd.2.1]
          simp only [List.length_append]
          have hms : s.metadata_store.length = s.index.vectors.length := ih
          omega
        rcases ids with _ | l
        · exact step false [] (by simp)
        · rcases l with _ | ⟨a, t⟩
          · exact step false [] (by simp)
          · exact step true (a :: t) (fun _ => by simpa using hids (a :: t) rfl (by simp))
      · rw [if_pos (by simp [ha])]
        exact ih
  | saveLoad s t _ _ ihs _ =>
    exact ihs

/-- C9 witness: a freshly constructed store satisfies the invariant. -/
theorem c9_stats_invariant_witness :
    (getStats (mkFAISSVectorStore 4)).metadata_count
      = (getStats (mkFAISSVectorStore 4)).total_vectors :=
  c9_stats_invariant (mkFAISSVectorStore 4) (.init 4)

/-- C9 counterexample: an insert with equal-length vector and metadata
lists (three each) but a one-element `ids` list raises `IndexError` after
the index has grown by three and the metadata array by only two, so
`stats()` reports `metadata_count = 2 ≠ 3 = total_vectors`. -/
theorem c9_short_ids_counterexample :
    (getStats (addVectors (mkFAISSVectorStore 1)
        [[1], [2], [3]] [[], [], []] (some ["a"])).2).total_vectors = 3
    ∧ (getStats (addVectors (mkFAISSVectorStore 1)
        [[1], [2], [3]] [[], [], []] (some ["a"])).2).metadata_count = 2
    ∧ (getStats (addVectors (mkFAISSVectorStore 1)
        [[1], [2], [3]] [[], [], []] (some ["a"])).2).metadata_count
      ≠ (getStats (addVectors (mkFAISSVectorStore 1)
        [[1], [2], [3]] [[], [], []] (some ["a"])).2).total_vectors := by
  refine ⟨rfl, rfl, ?_⟩
  decide

/-! ### Theorems for C7 -/

/-- C7 counterexample: two candidates with identical distance (0) and
identical type (`function`); candidate A's content contains strictly more
query terms of the query `"foo"` (one versus zero), yet A's rerank score
(7/5) is not strictly greater than B's (3/2), because B's `name` matches a
query term and earns the +0.2 name boost. -/
theorem c7_name_boost_counterexample :
    (⟨0, [("content", .str "foo"), ("type", .str "function")]⟩ : Candidate).score
      = (⟨0, [("type", .str "function"), ("name", .str "foo")]⟩ : Candidate).score
    ∧ getStrMd [("content", MVal.str "foo"), ("type", MVal.str "function")] "type"
      = getStrMd [("type", MVal.str "function"), ("name", MVal.str "foo")] "type"
    ∧ termMatches "foo"
        (getStrMd [("content", MVal.str "foo"), ("type", MVal.str "function")] "content")
      > termMatches "foo"
        (getStrMd [("type", MVal.str "function"), ("name", MVal.str "foo")] "content")
    ∧ ¬(rerankScore "foo" ⟨0, [("content", .str "foo"), ("type", .str "function")]⟩
        > rerankScore "foo" ⟨0, [("type", .str "function"), ("name", .str "foo")]⟩) := by
  refine ⟨rfl, rfl, by decide, ?_⟩
  have h1 : termMatches "foo"
      (getStrMd [("content", MVal.str "foo"), ("type", MVal.str "function")] "content")
      = 1 := by decide
  have h2 : termMatches "foo"
      (getStrMd [("type", MVal.str "function"), ("name", MVal.str "foo")] "content")
      = 0 := by decide
  have h3 : nameBoost "foo" [("content", MVal.str "foo"), ("type", MVal.str "function")]
      = 0 := by
    rw [nameBoost, if_neg (by decide)]
  have h4 : nameBoost "foo" [("type", MVal.str "function"), ("name", MVal.str "foo")]
      = 1 / 5 := by
    rw [nameBoost, if_pos (by decide)]
  have h5 : typeBoost (getStrMd
      [("content", MVal.str "foo"), ("type", MVal.str "function")] "type") = 3 / 10 := by
    rw [show getStrMd [("content", MVal.str "foo"), ("type", MVal.str "function")] "type"
        = "function" from rfl]
    rw [typeBoost, if_pos rfl]
  have h6 : typeBoost (getStrMd
      [("type", MVal.str "function"), ("name", MVal.str "foo")] "type") = 3 / 10 := by
    rw [show getStrMd [("type", MVal.str "function"), ("name", MVal.str "foo")] "type"
        = "function" from rfl]
    rw [typeBoost, if_pos rfl]
  simp only [rerankScore, h1, h2, h3, h4, h5, h6]
  norm_num

/-- C7 (amended): for candidates with identical distance, identical
metadata type and identical name boost, strictly more query-term matches in
the content give a strictly greater rerank score. -/
theorem c7_rerank_term_monotonicity (query : String) (A B : Candidate)
    (hs : A.score = B.score)
    (ht : getStrMd A.metadata "type" = getStrMd B.metadata "type")
    (hn : nameBoost query A.metadata = nameBoost query B.metadata)
    (hm : termMatches query (getStrMd B.metadata "content")
        < termMatches query (getStrMd A.metadata "content")) :
    rerankScore query B < rerankScore query A := by
  unfold rerankScore
  rw [hs, ht, hn]
  have h1 : (termMatches query (getStrMd B.metadata "content") : ℚ) + 1
      ≤ (termMatches query (getStrMd A.metadata "content") : ℚ) := by
    exact_mod_cast hm
  linarith

/-- C7 witness: with query `"foo"`, a candidate whose content contains the
term outranks an otherwise identical candidate whose content does not. -/
theorem c7_rerank_term_monotonicity_witness :
    (⟨0, [("content", .str "foo"), ("type", .str "function")]⟩ : Candidate).score
      = (⟨0, [("type", .str "function")]⟩ : Candidate).score
    ∧ getStrMd [("content", MVal.str "foo"), ("type", MVal.str "function")] "type"
      = getStrMd [("type", MVal.str "function")] "type"
    ∧ nameBoost "foo" [("content", MVal.str "foo"), ("type", MVal.str "function")]
      = nameBoost "foo" [("type", MVal.str "function")]
    ∧ termMatches "foo" (getStrMd [("type", MVal.str "function")] "content")
      < termMatches "foo"
          (getStrMd [("content", MVal.str "foo"), ("type", MVal.str "function")] "content")
    ∧ rerankScore "foo" ⟨0, [("type", .str "function")]⟩
      < rerankScore "foo" ⟨0, [("content", .str "foo"), ("type", .str "function")]⟩ :=
  ⟨rfl, rfl, by decide, by decide,
    c7_rerank_term_monotonicity "foo"
      ⟨0, [("content", .str "foo"), ("type", .str "function")]⟩
      ⟨0, [("type", .str "function")]⟩ rfl rfl (by decide) (by decide)⟩

/-! ### Theorems for C8 -/

/-- Helper: `valid_data` keeps exactly the chunks whose embedding
succeeded, in order, pairing each with its embedding, metadata and id. -/
theorem validData_eq_filter (gen : String → Option (List ℚ)) :
    ∀ chunks : List CodeChunk,
      validData gen chunks
        = (chunks.filter (fun c => (gen c.content).isSome)).map
            (fun c => ((gen c.content).getD [], c.metadata, c.chunk_id)) := by
  intro chunks
  induction chunks with
  | nil => rfl
  | cons c t ih =>
    rw [validData] at ih ⊢
    simp only [List.map_cons, List.zip_cons_cons, List.filterMap_cons, List.filter_cons]
    cases hg : gen c.content with
    | none => simpa [hg] using ih
    | some e => simpa [hg] using ih

/-- Helper: a well-shaped non-empty insertion into the store succeeds and
appends the vectors and the metadata positionally. -/
theorem addVectors_success (s : FAISSVectorStore) (vectors : List (List ℚ))
    (metadata : List Metadata) (ids : List String)
    (hne : vectors ≠ [])
    (hdim : vectors.all (fun v => v.length = s.index.d) = true)
    (hlen : metadata.length ≤ ids.length) :
    (addVectors s vectors metadata (some ids)).1 = .ok ()
    ∧ (addVectors s vectors metadata (some ids)).2.metadata_store
        = s.metadata_store ++ metadata
    ∧ (addVectors s vectors metadata (some ids)).2.index.vectors
        = s.index.vectors ++ vectors := by
  have he : vectors.isEmpty = false := by
    cases vectors with
    | nil => exact absurd rfl hne
    | cons a t => rfl
  have hmd := mdLoop_complete (idsTruthy (some ids)) ids s.index.vectors.length metadata 0
    ({ s with index := { s.index with vectors := s.index.vectors ++ vectors } }
      : FAISSVectorStore)
    (fun _ => by simpa using hlen)
  have hredux : addVectors s vectors metadata (some ids)
      = mdLoop (idsTruthy (some ids)) ids s.index.vectors.length 0 metadata
          ({ s with index := { s.index with vectors := s.index.vectors ++ vectors } }
            : FAISSVectorStore) := by
    rw [addVectors, he, hdim]
    rfl
  rw [hredux]
  exact ⟨hmd.2.2.2, by rw [hmd.1], by rw [hmd.2.1]⟩

/-- C8 (amended): when at least one chunk embeds successfully, indexing
performs exactly one vector-store insert whose vectors, metadata and ids
are exactly those of the successfully embedded chunks in their original
order, the insert succeeds for well-shaped embeddings, the store grows by
exactly those records, and the reported count is the number of successes;
chunks whose embedding fails are dropped. (When no embedding succeeds, the
code returns 0 without performing any insert call — the corrected part of
the claim.) -/
theorem c8_index_chunks_successes (gen : String → Option (List ℚ))
    (s : FAISSVectorStore) (chunks : List CodeChunk)
    (hne : chunks.filter (fun c => (gen c.content).isSome) ≠ [])
    (hdim : ∀ c ∈ chunks.filter (fun c => (gen c.content).isSome),
      ((gen c.content).getD []).length = s.index.d) :
    (indexChunks gen s chunks).1
        = [((chunks.filter (fun c => (gen c.content).isSome)).map
              (fun c => (gen c.content).getD []),
            (chunks.filter (fun c => (gen c.content).isSome)).map (fun c => c.metadata),
            some ((chunks.filter (fun c => (gen c.content).isSome)).map
              (fun c => c.chunk_id)))]
    ∧ (indexChunks gen s chunks).2.map
          (fun r => (r.1, r.2.metadata_store, r.2.index.vectors))
        = .ok ((chunks.filter (fun c => (gen c.content).isSome)).length,
            s.metadata_store
              ++ (chunks.filter (fun c => (gen c.content).isSome)).map
                  (fun c => c.metadata),
            s.index.vectors
              ++ (chunks.filter (fun c => (gen c.content).isSome)).map
                  (fun c => (gen c.content).getD [])) := by
  have hv := validData_eq_filter gen chunks
  have hchne : chunks.isEmpty = false := by
    cases chunks with
    | nil => simp at hne
    | cons a t => rfl
  have hvne : (validData gen chunks).isEmpty = false := by
    rw [hv]
    simpa using hne
  have hsucc := addVectors_success s
    ((validData gen chunks).map (fun x => x.1))
    ((validData gen chunks).map (fun x => x.2.1))
    ((validData gen chunks).map (fun x => x.2.2))
    (by
      rw [hv]
      intro habs
      exact hne (by simpa using habs))
    (by
      rw [hv, List.all_eq_true]
      intro v hvmem
      simp only [List.map_map, List.mem_map] at hvmem
      obtain ⟨c, hc, hce⟩ := hvmem
      rw [← hce]
      simpa using hdim c hc)
    (by simp)
  rw [indexChunks, hchne, hvne]
  simp only [Bool.false_eq_true, if_false]
  revert hsucc
  cases haddv : addVectors s ((validData gen chunks).map (fun x => x.1))
      ((validData gen chunks).map (fun x => x.2.1))
      (some ((validData gen chunks).map (fun x => x.2.2))) with
  | mk res s1 =>
    intro hsucc
    obtain ⟨h1, h2, h3⟩ := hsucc
    simp only at h1 h2 h3
    cases res with
    | error e => simp at h1
    | ok u =>
      rw [packResult]
      constructor
      · rw [hv]
        simp [List.map_map]
      · rw [hv] at h2 h3 ⊢
        simp only [Except.map, List.map_map] at h2 h3 ⊢
        rw [h2, h3]
        simp [List.map_map]

/-- C8 counterexample: indexing one chunk whose embedding fails performs
zero insert calls (the claim requires one insert call, carrying the — then
empty — success list) and returns 0 with the store untouched. -/
theorem c8_zero_success_counterexample :
    (indexChunks (fun _ => none) (mkFAISSVectorStore 1)
        [{ content := "t0", metadata := [], chunk_id := "i0" }]).1 = []
    ∧ (indexChunks (fun _ => none) (mkFAISSVectorStore 1)
        [{ content := "t0", metadata := [], chunk_id := "i0" }]).2
        = .ok (0, mkFAISSVectorStore 1) :=
  ⟨rfl, rfl⟩

/-- C8 witness: the specification's scenario — ten chunks, the embedding
collaborator failing for chunks 3 and 7 — performs one insert call of the
eight surviving records in order and reports 8, with the store holding 8
records afterwards. -/
theorem c8_index_chunks_successes_witness :
    (scenarioChunks.filter (fun c => (scenarioGen c.content).isSome) ≠ [])
    ∧ (∀ c ∈ scenarioChunks.filter (fun c => (scenarioGen c.content).isSome),
        ((scenarioGen c.content).getD []).length = (mkFAISSVectorStore 1).index.d)
    ∧ (scenarioChunks.filter (fun c => (scenarioGen c.content).isSome)).length = 8
    ∧ (indexChunks scenarioGen (mkFAISSVectorStore 1) scenarioChunks).1
        = [((scenarioChunks.filter (fun c => (scenarioGen c.content).isSome)).map
              (fun c => (scenarioGen c.content).getD []),
            (scenarioChunks.filter (fun c => (scenarioGen c.content).isSome)).map
              (fun c => c.metadata),
            some ((scenarioChunks.filter (fun c => (scenarioGen c.content).isSome)).map
              (fun c => c.chunk_id)))]
    ∧ (indexChunks scenarioGen (mkFAISSVectorStore 1) scenarioChunks).2.map
          (fun r => (r.1, r.2.metadata_store, r.2.index.vectors))
        = .ok ((scenarioChunks.filter (fun c => (scenarioGen c.content).isSome)).length,
            (mkFAISSVectorStore 1).metadata_store
              ++ (scenarioChunks.filter (fun c => (scenarioGen c.content).isSome)).map
                  (fun c => c.metadata),
            (mkFAISSVectorStore 1).index.vectors
              ++ (scenarioChunks.filter (fun c => (scenarioGen c.content).isSome)).map
                  (fun c => (scenarioGen c.content).getD [])) := by
  refine ⟨by decide, by decide, by decide, ?_, ?_⟩
  · exact (c8_index_chunks_successes scenarioGen (mkFAISSVectorStore 1) scenarioChunks
      (by decide) (by decide)).1
  · exact (c8_index_chunks_successes scenarioGen (mkFAISSVectorStore 1) scenarioChunks
      (by decide) (by decide)).2

end Rag
